import Mathlib

/-!
# LC-Matchmaking-Bot: queues, match registry, player store and Elo updates

A shallow embedding of `src/index.js`.  Every slash-command handler is one atomic step
on an explicit state (the two in-memory queues, the `ongoingRankedMatches` map and the
`players` table).  User ids are an arbitrary type `ι` with decidable equality.

Ratings are integers.  `calculateEloChange` is evaluated in exact arithmetic: the
IEEE-754 rounding of `Math.pow` and of the division is not modelled.
-/

namespace Matchmaking

/-! ## Rating engine -/

/-- Decides `n ≤ K * (actualScore - expectedScore) + 1/2` exactly, where `K = 32`,
`actualScore = won ? 1 : 0` and `expectedScore = 1 / (1 + 10 ^ (d / 400))`.
With `c = 64 * actualScore - 2 * n + 1` the inequality is `64 ≤ c * (1 + 10 ^ (d / 400))`,
which for `0 < c < 64` is `(64 - c) ^ 400 ≤ c ^ 400 * 10 ^ d` (both sides scaled by a power
of ten when `d` is negative). -/
def roundReaches (d : Int) (won : Bool) (n : Int) : Bool :=
  let c : Int := (if won then 64 else 0) - 2 * n + 1
  if c ≤ 0 then false
  else if 64 ≤ c then true
  else decide ((64 - c).toNat ^ 400 * 10 ^ (-d).toNat ≤ c.toNat ^ 400 * 10 ^ d.toNat)

/-- Source: `calculateEloChange(playerElo, opponentElo, won)`, that is
`Math.round(K * (actualScore - expectedScore))`.  `Math.round x` is the greatest integer
`n` with `n ≤ x + 1/2`; the result lies in `[-32, 32]`, so it is found by a bounded search
from the top. -/
def calculateEloChange (playerElo opponentElo : Int) (won : Bool) : Int :=
  (Nat.findGreatest
    (fun k => roundReaches (opponentElo - playerElo) won ((k : Int) - 32) = true) 64 : Int) - 32

/-- Exact-real reading of `Math.round(K * (actualScore - expectedScore))`: `Math.round x` is
`⌊x + 1/2⌋` (halves go up), `K = 32`, and
`expectedScore = 1 / (1 + 10 ^ ((opponentElo - playerElo) / 400))`. -/
def IsRoundedEloChange (playerElo opponentElo : Int) (won : Bool) (n : Int) : Prop :=
  n = ⌊(32 : ℝ) * ((if won then 1 else 0) -
        1 / (1 + (10 : ℝ) ^ (((opponentElo - playerElo : Int) : ℝ) / 400))) + 1 / 2⌋

/-! ## Player store (the `players` table) -/

/-- One row of `players`: `user_id TEXT PRIMARY KEY, wins INTEGER DEFAULT 0,
losses INTEGER DEFAULT 0, elo INTEGER DEFAULT 500`. -/
structure Player (ι : Type) where
  user_id : ι
  wins : Nat
  losses : Nat
  elo : Int
deriving DecidableEq

/-- Row created by `INSERT ... (user_id) VALUES (?)`: the column defaults. -/
def defaultPlayer {ι : Type} (id : ι) : Player ι :=
  { user_id := id, wins := 0, losses := 0, elo := 500 }

/-- Row with the given primary key, if any. -/
def findPlayer {ι : Type} [DecidableEq ι] (rows : List (Player ι)) (id : ι) : Option (Player ι) :=
  rows.find? (fun p => decide (p.user_id = id))

/-- Source: `INSERT OR IGNORE INTO players (user_id) VALUES (?)`. -/
def insertOrIgnore {ι : Type} [DecidableEq ι] (rows : List (Player ι)) (id : ι) :
    List (Player ι) :=
  if (findPlayer rows id).isSome then rows else rows ++ [defaultPlayer id]

/-- Source: `SELECT user_id, elo FROM players WHERE user_id IN (?, ?)`. -/
def selectIn {ι : Type} [DecidableEq ι] (rows : List (Player ι)) (a b : ι) : List (Player ι) :=
  rows.filter (fun p => decide (p.user_id = a ∨ p.user_id = b))

/-- Source: `players.find(p => p.user_id === id)?.elo || 500`.  The JavaScript `||` takes the
right operand when the left one is falsy: `undefined` (no row found) and also `0`. -/
def eloOr500 {ι : Type} [DecidableEq ι] (selected : List (Player ι)) (id : ι) : Int :=
  match findPlayer selected id with
  | some p => if p.elo = 0 then 500 else p.elo
  | none => 500

/-- Source: `UPDATE players SET wins = wins + ?, losses = losses + ?, elo = elo + ?
WHERE user_id = ?`. -/
def updateStats {ι : Type} [DecidableEq ι] (rows : List (Player ι)) (w l : Nat) (e : Int)
    (id : ι) : List (Player ι) :=
  rows.map (fun p =>
    if p.user_id = id then { p with wins := p.wins + w, losses := p.losses + l, elo := p.elo + e }
    else p)

/-- Source: `SELECT * FROM players ORDER BY elo DESC LIMIT 10`.  Rows with equal `elo` keep
their table order. -/
def topTen {ι : Type} (rows : List (Player ι)) : List (Player ι) :=
  (rows.insertionSort (fun a b => b.elo ≤ a.elo)).take 10

/-! ## Match registry (`ongoingRankedMatches`, a JavaScript `Map`) -/

/-- Source: `Map.prototype.get`; `none` is `undefined`. -/
def mapGet {ι : Type} [DecidableEq ι] (m : List (ι × ι)) (k : ι) : Option ι :=
  (m.find? (fun e => decide (e.1 = k))).map (fun e => e.2)

/-- Source: `Map.prototype.has`. -/
def mapHas {ι : Type} [DecidableEq ι] (m : List (ι × ι)) (k : ι) : Bool :=
  m.any (fun e => decide (e.1 = k))

/-- Source: `Map.prototype.set`: overwrite the value of an existing key in place, or append. -/
def mapSet {ι : Type} [DecidableEq ι] (m : List (ι × ι)) (k v : ι) : List (ι × ι) :=
  if mapHas m k then m.map (fun e => if e.1 = k then (k, v) else e) else m ++ [(k, v)]

/-- Source: `Map.prototype.delete`. -/
def mapDelete {ι : Type} [DecidableEq ι] (m : List (ι × ι)) (k : ι) : List (ι × ι) :=
  m.filter (fun e => decide (e.1 ≠ k))

/-! ## Commands, replies and the handler -/

/-- The `result` option of `/report`: its choices are `win` and `loss`. -/
inductive Result where
  | win
  | loss
deriving DecidableEq

/-- The slash commands.  `resetleaderboard` carries whether the caller has the
`Administrator` permission. -/
inductive Command (ι : Type) where
  | join
  | joinranked
  | report (opponent : ι) (result : Result)
  | leaderboard
  | resetleaderboard (isAdministrator : Bool)
deriving DecidableEq

/-- The messages sent by `interaction.reply` and `interaction.followUp`. -/
inductive Message (ι : Type) where
  | alreadyInCasualQueue
  | joinedCasualQueue
  | casualMatchFound (p1 p2 : ι)
  | alreadyInRankedQueue
  | joinedRankedQueue
  | rankedMatchFound (p1 p2 : ι)
  | noActiveMatch
  | resultRecorded (isWinner : Bool) (userId : ι)
  | noRankedGames
  | topRankedPlayers (rows : List (Player ι))
  | adminOnly
  | leaderboardReset
deriving DecidableEq

/-- The mutable state: the module-level `casualQueue`, `rankedQueue` and
`ongoingRankedMatches`, and the contents of the `players` table. -/
structure State (ι : Type) where
  casualQueue : List ι
  rankedQueue : List ι
  ongoingRankedMatches : List (ι × ι)
  players : List (Player ι)
deriving DecidableEq

/-- State at start-up: empty queues and map, and a freshly re-created `players` table. -/
def init {ι : Type} : State ι :=
  { casualQueue := [], rankedQueue := [], ongoingRankedMatches := [], players := [] }

/-- Source: `if (queue.length >= 2) { p1 = queue.shift(); p2 = queue.shift(); ... }`:
the two oldest entries and what is left, when there are at least two. -/
def shiftPair {ι : Type} : List ι → Option (ι × ι × List ι)
  | p1 :: p2 :: rest => some (p1, p2, rest)
  | _ => none

/-- The `(playerElo, opponentElo)` that the `/report` handler passes to
`calculateEloChange`: both rows are created if missing, selected, and read with `|| 500`. -/
def reportRatings {ι : Type} [DecidableEq ι] (rows : List (Player ι)) (userId opponent : ι) :
    Int × Int :=
  let rows1 := insertOrIgnore (insertOrIgnore rows userId) opponent
  let selected := selectIn rows1 userId opponent
  (eloOr500 selected userId, eloOr500 selected opponent)

/-- Source: the `interactionCreate` listener, for the user `userId` issuing `cmd`.
Returns the new state and the messages sent, in order. -/
def interactionCreate {ι : Type} [DecidableEq ι] (s : State ι) (userId : ι) :
    Command ι → State ι × List (Message ι)
  | .join =>
    if userId ∈ s.casualQueue then (s, [.alreadyInCasualQueue])
    else
      match shiftPair (s.casualQueue ++ [userId]) with
      | some (p1, p2, rest) =>
        ({ s with casualQueue := rest }, [.joinedCasualQueue, .casualMatchFound p1 p2])
      | none => ({ s with casualQueue := s.casualQueue ++ [userId] }, [.joinedCasualQueue])
  | .joinranked =>
    if userId ∈ s.rankedQueue then (s, [.alreadyInRankedQueue])
    else
      match shiftPair (s.rankedQueue ++ [userId]) with
      | some (p1, p2, rest) =>
        ({ s with
            rankedQueue := rest
            ongoingRankedMatches := mapSet (mapSet s.ongoingRankedMatches p1 p2) p2 p1 },
          [.joinedRankedQueue, .rankedMatchFound p1 p2])
      | none => ({ s with rankedQueue := s.rankedQueue ++ [userId] }, [.joinedRankedQueue])
  | .report opponent result =>
    if !mapHas s.ongoingRankedMatches userId ∨
        mapGet s.ongoingRankedMatches userId ≠ some opponent then
      (s, [.noActiveMatch])
    else
      let isWinner : Bool := decide (result = Result.win)
      let rows1 := insertOrIgnore (insertOrIgnore s.players userId) opponent
      let eloChange :=
        calculateEloChange (reportRatings s.players userId opponent).1
          (reportRatings s.players userId opponent).2 isWinner
      let rows2 :=
        if isWinner then
          updateStats (updateStats rows1 1 0 eloChange userId) 0 1 (-eloChange) opponent
        else
          updateStats (updateStats rows1 0 1 eloChange userId) 1 0 (-eloChange) opponent
      ({ s with
          players := rows2
          ongoingRankedMatches := mapDelete (mapDelete s.ongoingRankedMatches userId) opponent },
        [.resultRecorded isWinner userId])
  | .leaderboard =>
    if (topTen s.players).length = 0 then (s, [.noRankedGames])
    else (s, [.topRankedPlayers (topTen s.players)])
  | .resetleaderboard isAdministrator =>
    if !isAdministrator then (s, [.adminOnly])
    else ({ s with players := [] }, [.leaderboardReset])

/-- The state after a sequence of commands, each given with the user who issued it. -/
def run {ι : Type} [DecidableEq ι] (s : State ι) : List (ι × Command ι) → State ι
  | [] => s
  | (u, c) :: rest => run (interactionCreate s u c).1 rest

/-- The messages sent for each command of a sequence, in order. -/
def replies {ι : Type} [DecidableEq ι] (s : State ι) :
    List (ι × Command ι) → List (List (Message ι))
  | [] => []
  | (u, c) :: rest => (interactionCreate s u c).2 :: replies (interactionCreate s u c).1 rest

/-- Whether every `joinranked` of the sequence is issued by a user who, at that moment, has no
entry in `ongoingRankedMatches`. -/
def joinsWhileUnmatched {ι : Type} [DecidableEq ι] (s : State ι) : List (ι × Command ι) → Bool
  | [] => true
  | (u, c) :: rest =>
    (decide (c = Command.joinranked → mapGet s.ongoingRankedMatches u = none)) &&
      joinsWhileUnmatched (interactionCreate s u c).1 rest

/-- The registry is a symmetric pairing: whenever it maps `a` to `b` it maps `b` to `a`. -/
def SymmetricPairing {ι : Type} [DecidableEq ι] (m : List (ι × ι)) : Prop :=
  ∀ a b, mapGet m a = some b → mapGet m b = some a

/-- The row of `id` as `INSERT OR IGNORE` leaves it: the stored row, or the default row when
there is none. -/
def storedOrDefault {ι : Type} [DecidableEq ι] (rows : List (Player ι)) (id : ι) : Player ι :=
  (findPlayer rows id).getD (defaultPlayer id)

/-- What every handler preserves: no queue holds a user twice, the registry never maps a user
to itself, `user_id` is a key of `players`, and the table totals are balanced. -/
structure Inv {ι : Type} [DecidableEq ι] (s : State ι) : Prop where
  casualNodup : s.casualQueue.Nodup
  rankedNodup : s.rankedQueue.Nodup
  irrefl : ∀ a, mapGet s.ongoingRankedMatches a ≠ some a
  keysNodup : (s.players.map (fun p => p.user_id)).Nodup
  eloSum : (s.players.map (fun p => p.elo)).sum = 500 * (s.players.length : Int)
  winsLosses : (s.players.map (fun p => p.wins)).sum = (s.players.map (fun p => p.losses)).sum

/-- The trace in which user `0` meets the fresh users `1, ..., n` in turn and reports a loss
against each. -/
def losingStreak : Nat → List (Nat × Command Nat)
  | 0 => []
  | n + 1 => losingStreak n ++
      [(0, .joinranked), (n + 1, .joinranked), (0, .report (n + 1) .loss)]


/-! ## Rating engine: exactness, zero-sum and bounds -/

theorem tenPow_400 (d : Int) :
    ((10 : ℝ) ^ ((d : ℝ) / 400)) ^ 400 * (10 : ℝ) ^ (-d).toNat = (10 : ℝ) ^ d.toNat := by
  have h10 : (0 : ℝ) ≤ 10 := by norm_num
  have h1 : ((10 : ℝ) ^ ((d : ℝ) / 400)) ^ 400 = (10 : ℝ) ^ d := by
    rw [← Real.rpow_natCast, ← Real.rpow_mul h10, ← Real.rpow_intCast]
    congr 1
    push_cast
    ring
  rw [h1]
  have h2 : d = (d.toNat : Int) - ((-d).toNat : Int) := (Int.toNat_sub_toNat_neg d).symm
  have h3 : (10 : ℝ) ^ d = (10 : ℝ) ^ d.toNat / (10 : ℝ) ^ (-d).toNat := by
    conv_lhs => rw [h2]
    rw [zpow_sub₀ (by norm_num), zpow_natCast, zpow_natCast]
  rw [h3]
  exact div_mul_cancel₀ _ (pow_ne_zero _ (by norm_num))

theorem reach_mid (d : Int) (c : Int) (h0 : 0 < c) (h64 : c < 64) :
    (64 : ℝ) ≤ c * (1 + (10 : ℝ) ^ ((d : ℝ) / 400)) ↔
      (64 - c).toNat ^ 400 * 10 ^ (-d).toNat ≤ c.toNat ^ 400 * 10 ^ d.toNat := by
  set t : ℝ := (10 : ℝ) ^ ((d : ℝ) / 400) with ht
  have htpos : 0 < t := Real.rpow_pos_of_pos (by norm_num) _
  have hc : ((c.toNat : ℕ) : ℝ) = (c : ℝ) := by
    have : ((c.toNat : ℕ) : Int) = c := Int.toNat_of_nonneg h0.le
    exact_mod_cast this
  have hc' : (((64 - c).toNat : ℕ) : ℝ) = 64 - (c : ℝ) := by
    have : (((64 - c).toNat : ℕ) : Int) = 64 - c := Int.toNat_of_nonneg (by omega)
    exact_mod_cast this
  have hcr : (0 : ℝ) < c := by exact_mod_cast h0
  have hcr' : (0 : ℝ) < 64 - c := by
    have : (c : ℝ) < 64 := by exact_mod_cast h64
    linarith only [this]
  have hN : (0 : ℝ) < (10 : ℝ) ^ (-d).toNat := pow_pos (by norm_num) _
  rw [← @Nat.cast_le ℝ]
  push_cast
  rw [hc, hc', ← tenPow_400 d, ← ht]
  constructor
  · intro h
    have h1 : 64 - (c : ℝ) ≤ c * t := by linarith only [h]
    have h2 : (64 - (c : ℝ)) ^ 400 ≤ (c * t) ^ 400 := pow_le_pow_left₀ hcr'.le h1 400
    calc (64 - (c : ℝ)) ^ 400 * (10 : ℝ) ^ (-d).toNat
        ≤ (c * t) ^ 400 * (10 : ℝ) ^ (-d).toNat := mul_le_mul_of_nonneg_right h2 hN.le
      _ = (c : ℝ) ^ 400 * (t ^ 400 * (10 : ℝ) ^ (-d).toNat) := by rw [mul_pow, mul_assoc]
  · intro h
    have h2 : (64 - (c : ℝ)) ^ 400 * (10 : ℝ) ^ (-d).toNat ≤ (c * t) ^ 400 * (10 : ℝ) ^ (-d).toNat := by
      calc (64 - (c : ℝ)) ^ 400 * (10 : ℝ) ^ (-d).toNat
          ≤ (c : ℝ) ^ 400 * (t ^ 400 * (10 : ℝ) ^ (-d).toNat) := h
        _ = (c * t) ^ 400 * (10 : ℝ) ^ (-d).toNat := by rw [mul_pow, mul_assoc]
    have h3 : (64 - (c : ℝ)) ^ 400 ≤ (c * t) ^ 400 := le_of_mul_le_mul_right h2 hN
    have h4 : 64 - (c : ℝ) ≤ c * t :=
      le_of_pow_le_pow_left₀ (by norm_num) (mul_pos hcr htpos).le h3
    linarith only [h4]

set_option exponentiation.threshold 400 in
theorem roundReaches_iff (d : Int) (won : Bool) (n : Int) :
    roundReaches d won n = true ↔
      (n : ℝ) ≤ (32 : ℝ) * ((if won then 1 else 0) - 1 / (1 + (10 : ℝ) ^ ((d : ℝ) / 400))) + 1 / 2 := by
  set t : ℝ := (10 : ℝ) ^ ((d : ℝ) / 400) with ht
  have htpos : 0 < t := Real.rpow_pos_of_pos (by norm_num) _
  have h1t : 0 < 1 + t := by linarith only [htpos]
  set c : Int := (if won then 64 else 0) - 2 * n + 1 with hc
  have hcR : (c : ℝ) = 64 * (if won then (1 : ℝ) else 0) - 2 * n + 1 := by
    rw [hc]; cases won <;> simp
  have key : (n : ℝ) ≤ (32 : ℝ) * ((if won then 1 else 0) - 1 / (1 + t)) + 1 / 2 ↔
      (64 : ℝ) ≤ c * (1 + t) := by
    rw [hcR]
    generalize (if won then (1 : ℝ) else 0) = a
    have h3 : (32 : ℝ) * (a - 1 / (1 + t)) + 1 / 2 =
        (32 * a * (1 + t) - 32 + (1 + t) / 2) / (1 + t) := by
      field_simp; ring
    rw [h3, le_div_iff₀ h1t]
    constructor <;> intro h <;> linarith only [h]
  rw [key]
  unfold roundReaches
  simp only [← hc]
  by_cases h0 : c ≤ 0
  · simp only [h0, if_true]
    have : (c : ℝ) ≤ 0 := by exact_mod_cast h0
    have : (c : ℝ) * (1 + t) ≤ 0 := mul_nonpos_of_nonpos_of_nonneg this h1t.le
    constructor
    · intro h; exact absurd h (by decide)
    · intro h; linarith only [h, this]
  · simp only [h0, if_false]
    by_cases h64 : 64 ≤ c
    · simp only [h64, if_true, true_iff]
      have h' : (64 : ℝ) ≤ c := by exact_mod_cast h64
      have : (c : ℝ) * 1 ≤ c * (1 + t) :=
        mul_le_mul_of_nonneg_left (by linarith only [htpos]) (by linarith only [h'])
      linarith only [this, h']
    · rw [if_neg h64]
      exact Iff.trans decide_eq_true_iff (reach_mid d c (by omega) (by omega)).symm

/-- The computed delta is the exact-real `Math.round(K * (actualScore - expectedScore))`. -/
theorem calculateEloChange_eq_floor (playerElo opponentElo : Int) (won : Bool) :
    calculateEloChange playerElo opponentElo won =
      ⌊(32 : ℝ) * ((if won then 1 else 0) -
        1 / (1 + (10 : ℝ) ^ (((opponentElo - playerElo : Int) : ℝ) / 400))) + 1 / 2⌋ := by
  set d : Int := opponentElo - playerElo with hd
  set t : ℝ := (10 : ℝ) ^ ((d : ℝ) / 400) with ht
  have htpos : 0 < t := Real.rpow_pos_of_pos (by norm_num) _
  have h1t : 0 < 1 + t := by linarith only [htpos]
  set z : ℝ := (32 : ℝ) * ((if won then 1 else 0) - 1 / (1 + t)) + 1 / 2 with hz
  have hfrac0 : 0 < 1 / (1 + t) := by positivity
  have hfrac1 : 1 / (1 + t) < 1 := by
    rw [div_lt_one h1t]; linarith only [htpos]
  have hlo : (-32 : ℝ) ≤ z := by
    rw [hz]; cases won <;> simp only [if_true, if_false, Bool.false_eq_true] <;> linarith only [hfrac0, hfrac1]
  have hhi : z < 33 := by
    rw [hz]; cases won <;> simp only [if_true, if_false, Bool.false_eq_true] <;> linarith only [hfrac0, hfrac1]
  have hflo : (-32 : Int) ≤ ⌊z⌋ := Int.le_floor.2 (by exact_mod_cast hlo)
  have hfhi : ⌊z⌋ < 33 := Int.floor_lt.2 (by exact_mod_cast hhi)
  have hP : ∀ k : ℕ, roundReaches d won ((k : Int) - 32) = true ↔ (k : Int) - 32 ≤ ⌊z⌋ := by
    intro k
    rw [roundReaches_iff, Int.le_floor]
  unfold calculateEloChange
  rw [← hd]
  have hfg : Nat.findGreatest (fun k => roundReaches d won ((k : Int) - 32) = true) 64 =
      (⌊z⌋ + 32).toNat := by
    rw [Nat.findGreatest_eq_iff]
    refine ⟨by omega, fun _ => ?_, fun n hn hn64 => ?_⟩
    · rw [hP]; omega
    · rw [hP]; omega
  rw [hfg]
  omega

set_option exponentiation.threshold 400 in
theorem odd_pow_mul_ten_pow {a b P N : ℕ} (ha : Odd a) (hb : Odd b) (hPN : P = 0 ∨ N = 0)
    (h : a ^ 400 * 10 ^ N = b ^ 400 * 10 ^ P) : a = b := by
  have hae : ¬ Even (a ^ 400) := Nat.not_even_iff_odd.2 ha.pow
  have hbe : ¬ Even (b ^ 400) := Nat.not_even_iff_odd.2 hb.pow
  have h10 : ∀ k : ℕ, k ≠ 0 → Even (10 ^ k) := fun k hk =>
    (Nat.even_pow.2 ⟨by decide, hk⟩)
  by_cases hP : P = 0
  · by_cases hN : N = 0
    · subst hP; subst hN
      simp only [pow_zero, mul_one] at h
      exact Nat.pow_left_injective (by decide : (400 : ℕ) ≠ 0) h
    · subst hP
      exfalso
      rw [pow_zero, mul_one] at h
      exact hbe (h ▸ (h10 N hN).mul_left _)
  · have hN : N = 0 := hPN.resolve_left hP
    subst hN
    exfalso
    rw [pow_zero, mul_one] at h
    exact hae (h ▸ (h10 P hP).mul_left _)

theorem win_half_ne (d : Int) (n : Int) :
    (n : ℝ) ≠ (32 : ℝ) * (1 - 1 / (1 + (10 : ℝ) ^ ((d : ℝ) / 400))) + 1 / 2 := by
  intro hEq
  set t : ℝ := (10 : ℝ) ^ ((d : ℝ) / 400) with ht
  have htpos : 0 < t := Real.rpow_pos_of_pos (by norm_num) _
  have h1t : 0 < 1 + t := by linarith only [htpos]
  have hE : 1 / (1 + t) * (1 + t) = 1 := div_mul_cancel₀ _ h1t.ne.symm
  generalize 1 / (1 + t) = e at hEq hE
  -- with `c = 65 - 2 n` the equation reads `c * t = 64 - c`
  have hct : ((65 - 2 * n : Int) : ℝ) * t = 64 - ((65 - 2 * n : Int) : ℝ) := by
    have hc : ((65 - 2 * n : Int) : ℝ) = 64 * e := by push_cast; linarith only [hEq]
    rw [hc]; linarith only [hE]
  set c : Int := 65 - 2 * n with hc
  have hc0 : 0 < c := by
    by_contra hneg
    have h1 : (c : ℝ) ≤ 0 := by exact_mod_cast not_lt.1 hneg
    have h2 : (c : ℝ) * t ≤ 0 := mul_nonpos_of_nonpos_of_nonneg h1 htpos.le
    linarith only [h1, h2, hct]
  have hc64 : c < 64 := by
    by_contra hneg
    have h1 : (64 : ℝ) ≤ c := by exact_mod_cast not_lt.1 hneg
    have h2 : 0 < (c : ℝ) * t := mul_pos (by linarith only [h1]) htpos
    linarith only [h1, h2, hct]
  have hcN : ((c.toNat : ℕ) : ℝ) = (c : ℝ) := by
    have : ((c.toNat : ℕ) : Int) = c := Int.toNat_of_nonneg hc0.le
    exact_mod_cast this
  have hcN' : (((64 - c).toNat : ℕ) : ℝ) = 64 - (c : ℝ) := by
    have : (((64 - c).toNat : ℕ) : Int) = 64 - c := Int.toNat_of_nonneg (by omega)
    exact_mod_cast this
  have hnat : (64 - c).toNat ^ 400 * 10 ^ (-d).toNat = c.toNat ^ 400 * 10 ^ d.toNat := by
    apply @Nat.cast_injective ℝ
    rw [Nat.cast_mul, Nat.cast_mul, Nat.cast_pow, Nat.cast_pow, Nat.cast_pow, Nat.cast_pow,
      hcN, hcN', ← hct, Nat.cast_ofNat, ← tenPow_400 d, ← ht, mul_pow, mul_assoc]
  have hodd : Odd c.toNat := by
    have : c.toNat % 2 = 1 := by omega
    exact Nat.odd_iff.2 this
  have hodd' : Odd (64 - c).toNat := by
    have : (64 - c).toNat % 2 = 1 := by omega
    exact Nat.odd_iff.2 this
  have hPN : d.toNat = 0 ∨ (-d).toNat = 0 := by omega
  have := odd_pow_mul_ten_pow hodd' hodd hPN hnat
  omega

theorem loss_eq_one_sub_win (d : Int) :
    (32 : ℝ) * (0 - 1 / (1 + (10 : ℝ) ^ (((-d : Int) : ℝ) / 400))) + 1 / 2 =
      1 - ((32 : ℝ) * (1 - 1 / (1 + (10 : ℝ) ^ ((d : ℝ) / 400))) + 1 / 2) := by
  have htpos : 0 < (10 : ℝ) ^ ((d : ℝ) / 400) := Real.rpow_pos_of_pos (by norm_num) _
  have hneg : (10 : ℝ) ^ (((-d : Int) : ℝ) / 400) = ((10 : ℝ) ^ ((d : ℝ) / 400))⁻¹ := by
    rw [← Real.rpow_neg (by norm_num)]
    congr 1
    push_cast; ring
  rw [hneg]
  generalize (10 : ℝ) ^ ((d : ℝ) / 400) = t at htpos
  field_simp
  ring

/-- C1. Zero-sum: the delta of `r1` winning against `r2` is the negation of the delta of `r2`
losing against `r1`, each delta being the exact-real
`Math.round(K * (actualScore - expectedScore))`. -/
theorem calculateEloChange_zero_sum (r1 r2 : Int) :
    IsRoundedEloChange r1 r2 true (calculateEloChange r1 r2 true) ∧
    IsRoundedEloChange r2 r1 false (calculateEloChange r2 r1 false) ∧
    calculateEloChange r1 r2 true = -calculateEloChange r2 r1 false := by
  refine ⟨calculateEloChange_eq_floor r1 r2 true, calculateEloChange_eq_floor r2 r1 false, ?_⟩
  rw [calculateEloChange_eq_floor r1 r2 true, calculateEloChange_eq_floor r2 r1 false]
  simp only [if_true, if_false, Bool.false_eq_true]
  have hd : r1 - r2 = -(r2 - r1) := by ring
  rw [hd, loss_eq_one_sub_win (r2 - r1)]
  have hne := win_half_ne (r2 - r1)
  generalize (32 : ℝ) * (1 - 1 / (1 + (10 : ℝ) ^ (((r2 - r1 : Int) : ℝ) / 400))) + 1 / 2 = z at hne
  have h1 : (⌊z⌋ : ℝ) ≤ z := Int.floor_le z
  have h2 : z < ⌊z⌋ + 1 := Int.lt_floor_add_one z
  have h3 : (⌊z⌋ : ℝ) < z := lt_of_le_of_ne h1 (hne ⌊z⌋)
  have h4 : ⌊1 - z⌋ = -⌊z⌋ := by
    rw [Int.floor_eq_iff]
    push_cast
    constructor <;> linarith only [h2, h3]
  rw [h4, neg_neg]

/-- C10. A win never lowers and a loss never raises the rating, and no delta exceeds `K = 32`;
the delta is the exact-real `Math.round(K * (actualScore - expectedScore))`. -/
theorem calculateEloChange_bounds (a b : Int) :
    (0 ≤ calculateEloChange a b true ∧ calculateEloChange a b true ≤ 32) ∧
    (-32 ≤ calculateEloChange a b false ∧ calculateEloChange a b false ≤ 0) ∧
    IsRoundedEloChange a b true (calculateEloChange a b true) ∧
    IsRoundedEloChange a b false (calculateEloChange a b false) := by
  have hk : ∀ won, Nat.findGreatest
      (fun k => roundReaches (b - a) won ((k : Int) - 32) = true) 64 ≤ 64 :=
    fun won => Nat.findGreatest_le 64
  refine ⟨⟨?_, ?_⟩, ⟨?_, ?_⟩, calculateEloChange_eq_floor a b true,
    calculateEloChange_eq_floor a b false⟩
  · have : 32 ≤ Nat.findGreatest
        (fun k => roundReaches (b - a) true ((k : Int) - 32) = true) 64 :=
      Nat.le_findGreatest (by norm_num) (by simp [roundReaches])
    unfold calculateEloChange; omega
  · have := hk true
    unfold calculateEloChange; omega
  · have := hk false
    unfold calculateEloChange; omega
  · rw [calculateEloChange_eq_floor]
    simp only [if_false, Bool.false_eq_true]
    have htpos : 0 < (10 : ℝ) ^ (((b - a : Int) : ℝ) / 400) :=
      Real.rpow_pos_of_pos (by norm_num) _
    have hfrac0 : 0 < 1 / (1 + (10 : ℝ) ^ (((b - a : Int) : ℝ) / 400)) := by positivity
    generalize 1 / (1 + (10 : ℝ) ^ (((b - a : Int) : ℝ) / 400)) = e at hfrac0
    have : ⌊(32 : ℝ) * (0 - e) + 1 / 2⌋ < 1 := by
      rw [Int.floor_lt]
      push_cast
      linarith only [hfrac0]
    omega

/-! ## Registry lemmas -/

theorem mapGet_nil {ι : Type} [DecidableEq ι] (x : ι) : mapGet ([] : List (ι × ι)) x = none := rfl

theorem mapGet_cons {ι : Type} [DecidableEq ι] (e : ι × ι) (m : List (ι × ι)) (x : ι) :
    mapGet (e :: m) x = if e.1 = x then some e.2 else mapGet m x := by
  unfold mapGet
  by_cases h : e.1 = x <;> simp [List.find?_cons, h]

theorem mapDelete_cons {ι : Type} [DecidableEq ι] (e : ι × ι) (m : List (ι × ι)) (k : ι) :
    mapDelete (e :: m) k = if e.1 = k then mapDelete m k else e :: mapDelete m k := by
  unfold mapDelete
  by_cases h : e.1 = k <;> simp [List.filter_cons, h]

theorem mapGet_mapDelete {ι : Type} [DecidableEq ι] (m : List (ι × ι)) (k x : ι) :
    mapGet (mapDelete m k) x = if x = k then none else mapGet m x := by
  induction m with
  | nil => simp [mapDelete, mapGet_nil]
  | cons e m ih =>
    rw [mapDelete_cons, mapGet_cons]
    by_cases he : e.1 = k
    · rw [if_pos he, ih]
      by_cases hx : x = k
      · simp [hx]
      · have hex : ¬ e.1 = x := fun h => hx (h.symm.trans he)
        simp [hx, hex]
    · rw [if_neg he, mapGet_cons, ih]
      by_cases hex : e.1 = x
      · have hx : ¬ x = k := fun h => he (hex.trans h)
        simp [hex, hx]
      · simp [hex]

theorem mapGet_append_single {ι : Type} [DecidableEq ι] (m : List (ι × ι)) (k v x : ι) :
    mapGet (m ++ [(k, v)]) x =
      match mapGet m x with
      | some y => some y
      | none => if k = x then some v else none := by
  induction m with
  | nil => simp [mapGet_cons, mapGet_nil]
  | cons e m ih =>
    rw [List.cons_append, mapGet_cons, mapGet_cons, ih]
    by_cases hex : e.1 = x <;> simp [hex]

theorem mapHas_eq_isSome {ι : Type} [DecidableEq ι] (m : List (ι × ι)) (k : ι) :
    mapHas m k = (mapGet m k).isSome := by
  induction m with
  | nil => simp [mapGet_nil, mapHas]
  | cons e m ih =>
    rw [mapGet_cons]
    unfold mapHas at ih ⊢
    by_cases he : e.1 = k
    · simp [he]
    · simp [he, ih]

theorem mapGet_map_replace {ι : Type} [DecidableEq ι] (m : List (ι × ι)) (k v x : ι) :
    mapGet (m.map (fun e => if e.1 = k then (k, v) else e)) x =
      if x = k then (mapGet m k).map (fun _ => v) else mapGet m x := by
  induction m with
  | nil => simp [mapGet_nil]
  | cons e m ih =>
    rw [List.map_cons, mapGet_cons, mapGet_cons, mapGet_cons, ih]
    by_cases he : e.1 = k
    · by_cases hx : x = k
      · simp [he, hx]
      · have hkx : ¬ k = x := fun h => hx h.symm
        have hex : ¬ e.1 = x := fun h => hx (h.symm.trans he)
        simp [he, hx, hkx, hex]
    · by_cases hx : x = k
      · simp [he, hx]
      · by_cases hex : e.1 = x <;> simp [he, hx, hex]

theorem mapGet_mapSet {ι : Type} [DecidableEq ι] (m : List (ι × ι)) (k v x : ι) :
    mapGet (mapSet m k v) x = if x = k then some v else mapGet m x := by
  unfold mapSet
  rw [mapHas_eq_isSome]
  cases hk : mapGet m k with
  | none =>
    simp only [Option.isSome_none, Bool.false_eq_true, if_false]
    rw [mapGet_append_single]
    by_cases hx : x = k
    · subst hx; simp [hk]
    · have hkx : ¬ k = x := fun h => hx h.symm
      cases hm : mapGet m x <;> simp [hx, hkx]
  | some y =>
    simp only [Option.isSome_some, if_true]
    rw [mapGet_map_replace, hk]
    by_cases hx : x = k <;> simp [hx]

/-! ## Player-store lemmas -/

theorem findPlayer_nil {ι : Type} [DecidableEq ι] (x : ι) :
    findPlayer ([] : List (Player ι)) x = none := rfl

theorem findPlayer_cons {ι : Type} [DecidableEq ι] (p : Player ι) (rows : List (Player ι))
    (x : ι) : findPlayer (p :: rows) x = if p.user_id = x then some p else findPlayer rows x := by
  unfold findPlayer
  by_cases h : p.user_id = x <;> simp [List.find?_cons, h]

theorem findPlayer_isSome_iff {ι : Type} [DecidableEq ι] (rows : List (Player ι)) (x : ι) :
    (findPlayer rows x).isSome = true ↔ x ∈ rows.map (fun p => p.user_id) := by
  induction rows with
  | nil => simp [findPlayer_nil]
  | cons q rows ih =>
    rw [findPlayer_cons]
    by_cases hq : q.user_id = x
    · simp [hq]
    · have hq' : ¬ x = q.user_id := fun h => hq h.symm
      simp [hq, hq', ih]

theorem findPlayer_append_single {ι : Type} [DecidableEq ι] (rows : List (Player ι))
    (q : Player ι) (x : ι) :
    findPlayer (rows ++ [q]) x =
      match findPlayer rows x with
      | some p => some p
      | none => if q.user_id = x then some q else none := by
  induction rows with
  | nil => simp [findPlayer_cons, findPlayer_nil]
  | cons r rows ih =>
    rw [List.cons_append, findPlayer_cons, findPlayer_cons, ih]
    by_cases hr : r.user_id = x <;> simp [hr]

theorem findPlayer_insertOrIgnore_self {ι : Type} [DecidableEq ι] (rows : List (Player ι))
    (id : ι) : findPlayer (insertOrIgnore rows id) id = some (storedOrDefault rows id) := by
  unfold insertOrIgnore storedOrDefault
  cases h : findPlayer rows id with
  | none => simp [findPlayer_append_single, h, defaultPlayer]
  | some p => simp [h]

theorem findPlayer_insertOrIgnore_of_ne {ι : Type} [DecidableEq ι] (rows : List (Player ι))
    {id x : ι} (hx : x ≠ id) : findPlayer (insertOrIgnore rows id) x = findPlayer rows x := by
  unfold insertOrIgnore
  by_cases h : (findPlayer rows id).isSome = true
  · rw [if_pos h]
  · rw [if_neg h, findPlayer_append_single]
    have : ¬ (defaultPlayer id).user_id = x := fun e => hx e.symm
    cases findPlayer rows x <;> simp [this]

theorem findPlayer_updateStats {ι : Type} [DecidableEq ι] (rows : List (Player ι)) (w l : Nat)
    (e : Int) (id x : ι) :
    findPlayer (updateStats rows w l e id) x =
      (findPlayer rows x).map (fun p =>
        if x = id then { p with wins := p.wins + w, losses := p.losses + l, elo := p.elo + e }
        else p) := by
  induction rows with
  | nil => simp [updateStats, findPlayer_nil]
  | cons q rows ih =>
    unfold updateStats at ih ⊢
    rw [List.map_cons, findPlayer_cons, findPlayer_cons, ih]
    by_cases hq : q.user_id = id
    · by_cases hx : x = id
      · simp [hq, hx]
      · have hidx : ¬ id = x := fun h => hx h.symm
        have hqx : ¬ q.user_id = x := fun h => hx (h.symm.trans hq)
        simp [hq, hx, hidx, hqx]
    · by_cases hqx : q.user_id = x
      · have hx : ¬ x = id := fun h => hq (hqx.trans h)
        simp [hq, hqx, hx]
      · simp [hq, hqx]

theorem findPlayer_selectIn {ι : Type} [DecidableEq ι] (rows : List (Player ι)) (a b x : ι)
    (hx : x = a ∨ x = b) : findPlayer (selectIn rows a b) x = findPlayer rows x := by
  induction rows with
  | nil => simp [selectIn, findPlayer_nil]
  | cons q rows ih =>
    unfold selectIn at ih ⊢
    rw [List.filter_cons, findPlayer_cons]
    by_cases hq : q.user_id = a ∨ q.user_id = b
    · simp only [hq, decide_True, if_true]
      rw [findPlayer_cons, ih]
    · simp only [hq, decide_False, Bool.false_eq_true, if_false]
      rw [ih]
      have : ¬ q.user_id = x := by
        intro h
        apply hq
        rw [h]
        exact hx
      rw [if_neg this]

theorem updateStats_keys {ι : Type} [DecidableEq ι] (rows : List (Player ι)) (w l : Nat)
    (e : Int) (id : ι) :
    (updateStats rows w l e id).map (fun p => p.user_id) = rows.map (fun p => p.user_id) := by
  unfold updateStats
  rw [List.map_map]
  apply List.map_congr_left
  intro p _
  by_cases h : p.user_id = id <;> simp [h]

theorem updateStats_length {ι : Type} [DecidableEq ι] (rows : List (Player ι)) (w l : Nat)
    (e : Int) (id : ι) : (updateStats rows w l e id).length = rows.length := by
  unfold updateStats
  rw [List.length_map]

theorem updateStats_elo_sum {ι : Type} [DecidableEq ι] (rows : List (Player ι)) (w l : Nat)
    (e : Int) (id : ι) :
    ((updateStats rows w l e id).map (fun p => p.elo)).sum =
      (rows.map (fun p => p.elo)).sum + e * ((rows.map (fun p => p.user_id)).count id : Int) := by
  induction rows with
  | nil => simp [updateStats]
  | cons q rows ih =>
    unfold updateStats at ih ⊢
    rw [List.map_cons, List.map_cons, List.sum_cons, ih, List.map_cons, List.map_cons,
      List.sum_cons, List.count_cons]
    by_cases hq : q.user_id = id
    · simp only [hq, if_true, beq_self_eq_true]
      push_cast
      ring
    · have : (q.user_id == id) = false := by simpa using hq
      simp only [hq, if_false, this, Bool.false_eq_true]
      push_cast
      ring

theorem updateStats_wins_sum {ι : Type} [DecidableEq ι] (rows : List (Player ι)) (w l : Nat)
    (e : Int) (id : ι) :
    ((updateStats rows w l e id).map (fun p => p.wins)).sum =
      (rows.map (fun p => p.wins)).sum + w * (rows.map (fun p => p.user_id)).count id := by
  induction rows with
  | nil => simp [updateStats]
  | cons q rows ih =>
    unfold updateStats at ih ⊢
    rw [List.map_cons, List.map_cons, List.sum_cons, ih, List.map_cons, List.map_cons,
      List.sum_cons, List.count_cons]
    by_cases hq : q.user_id = id
    · simp only [hq, if_true, beq_self_eq_true]
      ring
    · have : (q.user_id == id) = false := by simpa using hq
      simp only [hq, if_false, this, Bool.false_eq_true]
      ring

theorem updateStats_losses_sum {ι : Type} [DecidableEq ι] (rows : List (Player ι)) (w l : Nat)
    (e : Int) (id : ι) :
    ((updateStats rows w l e id).map (fun p => p.losses)).sum =
      (rows.map (fun p => p.losses)).sum + l * (rows.map (fun p => p.user_id)).count id := by
  induction rows with
  | nil => simp [updateStats]
  | cons q rows ih =>
    unfold updateStats at ih ⊢
    rw [List.map_cons, List.map_cons, List.sum_cons, ih, List.map_cons, List.map_cons,
      List.sum_cons, List.count_cons]
    by_cases hq : q.user_id = id
    · simp only [hq, if_true, beq_self_eq_true]
      ring
    · have : (q.user_id == id) = false := by simpa using hq
      simp only [hq, if_false, this, Bool.false_eq_true]
      ring

theorem insertOrIgnore_keys {ι : Type} [DecidableEq ι] (rows : List (Player ι)) (id : ι) :
    (insertOrIgnore rows id).map (fun p => p.user_id) =
      if id ∈ rows.map (fun p => p.user_id) then rows.map (fun p => p.user_id)
      else rows.map (fun p => p.user_id) ++ [id] := by
  unfold insertOrIgnore
  by_cases h : id ∈ rows.map (fun p => p.user_id)
  · rw [if_pos h, if_pos ((findPlayer_isSome_iff rows id).2 h)]
  · rw [if_neg h, if_neg (fun h' => h ((findPlayer_isSome_iff rows id).1 h'))]
    simp [defaultPlayer]

theorem insertOrIgnore_nodup {ι : Type} [DecidableEq ι] (rows : List (Player ι)) (id : ι)
    (h : (rows.map (fun p => p.user_id)).Nodup) :
    ((insertOrIgnore rows id).map (fun p => p.user_id)).Nodup := by
  rw [insertOrIgnore_keys]
  by_cases hm : id ∈ rows.map (fun p => p.user_id)
  · rw [if_pos hm]; exact h
  · rw [if_neg hm]
    exact List.Nodup.append h (List.nodup_singleton id) (by simpa using hm)

theorem mem_insertOrIgnore_keys {ι : Type} [DecidableEq ι] (rows : List (Player ι)) (id x : ι) :
    x ∈ (insertOrIgnore rows id).map (fun p => p.user_id) ↔
      x = id ∨ x ∈ rows.map (fun p => p.user_id) := by
  rw [insertOrIgnore_keys]
  by_cases hm : id ∈ rows.map (fun p => p.user_id)
  · rw [if_pos hm]
    constructor
    · exact Or.inr
    · rintro (h | h)
      · rw [h]; exact hm
      · exact h
  · rw [if_neg hm, List.mem_append, List.mem_singleton]
    exact or_comm

theorem insertOrIgnore_sums {ι : Type} [DecidableEq ι] (rows : List (Player ι)) (id : ι)
    (hE : (rows.map (fun p => p.elo)).sum = 500 * (rows.length : Int)) :
    ((insertOrIgnore rows id).map (fun p => p.elo)).sum =
        500 * ((insertOrIgnore rows id).length : Int) ∧
    ((insertOrIgnore rows id).map (fun p => p.wins)).sum = (rows.map (fun p => p.wins)).sum ∧
    ((insertOrIgnore rows id).map (fun p => p.losses)).sum =
        (rows.map (fun p => p.losses)).sum := by
  unfold insertOrIgnore
  by_cases h : (findPlayer rows id).isSome = true
  · rw [if_pos h]; exact ⟨hE, rfl, rfl⟩
  · rw [if_neg h]
    refine ⟨?_, ?_, ?_⟩
    · rw [List.map_append, List.sum_append, hE, List.length_append]
      simp [defaultPlayer]
      ring
    · simp [defaultPlayer]
    · simp [defaultPlayer]

/-! ## Handler lemmas and the invariant -/

theorem shiftPair_eq_some {ι : Type} {l : List ι} {p1 p2 : ι} {rest : List ι}
    (h : shiftPair l = some (p1, p2, rest)) : l = p1 :: p2 :: rest := by
  match l, h with
  | a :: b :: r, h =>
    simp only [shiftPair, Option.some.injEq, Prod.mk.injEq] at h
    obtain ⟨rfl, rfl, rfl⟩ := h
    rfl

theorem shiftPair_of_length {ι : Type} (l : List ι) (h : 2 ≤ l.length) :
    ∃ p1 p2, l.take 2 = [p1, p2] ∧ shiftPair l = some (p1, p2, l.drop 2) := by
  match l, h with
  | a :: b :: r, _ => exact ⟨a, b, rfl, rfl⟩

theorem nodup_snoc {ι : Type} {q : List ι} {u : ι} (hq : q.Nodup) (hu : u ∉ q) :
    (q ++ [u]).Nodup :=
  List.Nodup.append hq (List.nodup_singleton u) (by simpa using hu)

theorem report_accepted {ι : Type} [DecidableEq ι] (s : State ι) (u opp : ι) (res : Result)
    (h : mapGet s.ongoingRankedMatches u = some opp) :
    interactionCreate s u (.report opp res) =
      ({ s with
          players :=
            if decide (res = Result.win) = true then
              updateStats (updateStats (insertOrIgnore (insertOrIgnore s.players u) opp) 1 0
                (calculateEloChange (reportRatings s.players u opp).1
                  (reportRatings s.players u opp).2 (decide (res = Result.win))) u) 0 1
                (-calculateEloChange (reportRatings s.players u opp).1
                  (reportRatings s.players u opp).2 (decide (res = Result.win))) opp
            else
              updateStats (updateStats (insertOrIgnore (insertOrIgnore s.players u) opp) 0 1
                (calculateEloChange (reportRatings s.players u opp).1
                  (reportRatings s.players u opp).2 (decide (res = Result.win))) u) 1 0
                (-calculateEloChange (reportRatings s.players u opp).1
                  (reportRatings s.players u opp).2 (decide (res = Result.win))) opp
          ongoingRankedMatches := mapDelete (mapDelete s.ongoingRankedMatches u) opp },
        [.resultRecorded (decide (res = Result.win)) u]) := by
  have hcond : ¬ ((!mapHas s.ongoingRankedMatches u) = true ∨
      mapGet s.ongoingRankedMatches u ≠ some opp) := by
    rw [mapHas_eq_isSome, h]
    simp
  simp only [interactionCreate]
  rw [if_neg hcond]

theorem report_rejected {ι : Type} [DecidableEq ι] (s : State ι) (u opp : ι) (res : Result)
    (h : mapGet s.ongoingRankedMatches u ≠ some opp) :
    interactionCreate s u (.report opp res) = (s, [.noActiveMatch]) := by
  simp only [interactionCreate]
  rw [if_pos (Or.inr h)]

theorem inv_init {ι : Type} [DecidableEq ι] : Inv (init : State ι) :=
  { casualNodup := List.nodup_nil
    rankedNodup := List.nodup_nil
    irrefl := fun a => by simp [init, mapGet_nil]
    keysNodup := List.nodup_nil
    eloSum := by simp [init]
    winsLosses := rfl }

theorem stats_balanced {ι : Type} [DecidableEq ι] (rows : List (Player ι)) (u opp : ι)
    (w1 l1 w2 l2 : Nat) (e : Int) (hwl : w1 + w2 = l1 + l2)
    (hk : (rows.map (fun p => p.user_id)).Nodup)
    (hE : (rows.map (fun p => p.elo)).sum = 500 * (rows.length : Int))
    (hW : (rows.map (fun p => p.wins)).sum = (rows.map (fun p => p.losses)).sum) :
    let rows1 := insertOrIgnore (insertOrIgnore rows u) opp
    let rows2 := updateStats (updateStats rows1 w1 l1 e u) w2 l2 (-e) opp
    (rows2.map (fun p => p.user_id)).Nodup ∧
    (rows2.map (fun p => p.elo)).sum = 500 * (rows2.length : Int) ∧
    (rows2.map (fun p => p.wins)).sum = (rows2.map (fun p => p.losses)).sum := by
  intro rows1 rows2
  have hk1 : (rows1.map (fun p => p.user_id)).Nodup :=
    insertOrIgnore_nodup _ _ (insertOrIgnore_nodup _ _ hk)
  have hu : u ∈ rows1.map (fun p => p.user_id) :=
    (mem_insertOrIgnore_keys _ _ _).2 (Or.inr ((mem_insertOrIgnore_keys _ _ _).2 (Or.inl rfl)))
  have ho : opp ∈ rows1.map (fun p => p.user_id) :=
    (mem_insertOrIgnore_keys _ _ _).2 (Or.inl rfl)
  have hcu : (rows1.map (fun p => p.user_id)).count u = 1 := List.count_eq_one_of_mem hk1 hu
  have hco : (rows1.map (fun p => p.user_id)).count opp = 1 := List.count_eq_one_of_mem hk1 ho
  obtain ⟨hE0, hW0, hL0⟩ := insertOrIgnore_sums rows u hE
  obtain ⟨hE1, hW1, hL1⟩ := insertOrIgnore_sums (insertOrIgnore rows u) opp hE0
  refine ⟨?_, ?_, ?_⟩
  · show ((updateStats (updateStats rows1 w1 l1 e u) w2 l2 (-e) opp).map _).Nodup
    rw [updateStats_keys, updateStats_keys]; exact hk1
  · show ((updateStats (updateStats rows1 w1 l1 e u) w2 l2 (-e) opp).map _).sum =
      500 * ((updateStats (updateStats rows1 w1 l1 e u) w2 l2 (-e) opp).length : Int)
    rw [updateStats_elo_sum, updateStats_elo_sum, updateStats_keys, updateStats_length,
      updateStats_length, hcu, hco]
    have : (rows1.map (fun p => p.elo)).sum = 500 * (rows1.length : Int) := hE1
    rw [this]; push_cast; ring
  · show ((updateStats (updateStats rows1 w1 l1 e u) w2 l2 (-e) opp).map _).sum =
      ((updateStats (updateStats rows1 w1 l1 e u) w2 l2 (-e) opp).map _).sum
    rw [updateStats_wins_sum, updateStats_wins_sum, updateStats_losses_sum,
      updateStats_losses_sum, updateStats_keys, hcu, hco]
    have h1 : (rows1.map (fun p => p.wins)).sum = (rows.map (fun p => p.wins)).sum :=
      hW1.trans hW0
    have h2 : (rows1.map (fun p => p.losses)).sum = (rows.map (fun p => p.losses)).sum :=
      hL1.trans hL0
    rw [h1, h2, hW]
    omega

theorem inv_step {ι : Type} [DecidableEq ι] (s : State ι) (u : ι) (c : Command ι)
    (h : Inv s) : Inv (interactionCreate s u c).1 := by
  cases c with
  | join =>
    simp only [interactionCreate]
    by_cases hm : u ∈ s.casualQueue
    · rw [if_pos hm]; exact h
    · rw [if_neg hm]
      have hnd := nodup_snoc h.casualNodup hm
      cases hsp : shiftPair (s.casualQueue ++ [u]) with
      | none => exact { h with casualNodup := hnd }
      | some t =>
        obtain ⟨p1, p2, rest⟩ := t
        rw [shiftPair_eq_some hsp] at hnd
        exact { h with casualNodup := (List.nodup_cons.1 (List.nodup_cons.1 hnd).2).2 }
  | joinranked =>
    simp only [interactionCreate]
    by_cases hm : u ∈ s.rankedQueue
    · rw [if_pos hm]; exact h
    · rw [if_neg hm]
      have hnd := nodup_snoc h.rankedNodup hm
      cases hsp : shiftPair (s.rankedQueue ++ [u]) with
      | none => exact { h with rankedNodup := hnd }
      | some t =>
        obtain ⟨p1, p2, rest⟩ := t
        rw [shiftPair_eq_some hsp] at hnd
        have hne : p1 ≠ p2 := fun e => (List.nodup_cons.1 hnd).1 (e ▸ List.mem_cons_self _ _)
        refine { h with rankedNodup := (List.nodup_cons.1 (List.nodup_cons.1 hnd).2).2, irrefl := ?_ }
        intro a
        show mapGet (mapSet (mapSet s.ongoingRankedMatches p1 p2) p2 p1) a ≠ some a
        rw [mapGet_mapSet, mapGet_mapSet]
        by_cases ha2 : a = p2
        · rw [if_pos ha2, ha2]
          intro e; exact hne (Option.some.inj e)
        · rw [if_neg ha2]
          by_cases ha1 : a = p1
          · rw [if_pos ha1, ha1]
            intro e; exact hne (Option.some.inj e).symm
          · rw [if_neg ha1]; exact h.irrefl a
  | report opp res =>
    by_cases hacc : mapGet s.ongoingRankedMatches u = some opp
    · rw [report_accepted s u opp res hacc]
      have hirr : ∀ a, mapGet (mapDelete (mapDelete s.ongoingRankedMatches u) opp) a ≠ some a := by
        intro a
        rw [mapGet_mapDelete, mapGet_mapDelete]
        by_cases ha : a = opp
        · rw [if_pos ha]; exact Option.noConfusion
        · rw [if_neg ha]
          by_cases ha' : a = u
          · rw [if_pos ha']; exact Option.noConfusion
          · rw [if_neg ha']; exact h.irrefl a
      cases res with
      | win =>
        obtain ⟨hk, hE, hW⟩ := stats_balanced s.players u opp 1 0 0 1
          (calculateEloChange (reportRatings s.players u opp).1
            (reportRatings s.players u opp).2 true) rfl h.keysNodup h.eloSum h.winsLosses
        exact { casualNodup := h.casualNodup, rankedNodup := h.rankedNodup, irrefl := hirr,
                keysNodup := hk, eloSum := hE, winsLosses := hW }
      | loss =>
        obtain ⟨hk, hE, hW⟩ := stats_balanced s.players u opp 0 1 1 0
          (calculateEloChange (reportRatings s.players u opp).1
            (reportRatings s.players u opp).2 false) rfl h.keysNodup h.eloSum h.winsLosses
        exact { casualNodup := h.casualNodup, rankedNodup := h.rankedNodup, irrefl := hirr,
                keysNodup := hk, eloSum := hE, winsLosses := hW }
    · rw [report_rejected s u opp res hacc]; exact h
  | leaderboard =>
    simp only [interactionCreate]
    by_cases hl : (topTen s.players).length = 0
    · rw [if_pos hl]; exact h
    · rw [if_neg hl]; exact h
  | resetleaderboard isAdministrator =>
    simp only [interactionCreate]
    cases isAdministrator with
    | false => exact h
    | true =>
      exact { casualNodup := h.casualNodup, rankedNodup := h.rankedNodup, irrefl := h.irrefl,
              keysNodup := List.nodup_nil, eloSum := by simp, winsLosses := rfl }

theorem inv_run {ι : Type} [DecidableEq ι] (evs : List (ι × Command ι)) (s : State ι)
    (h : Inv s) : Inv (run s evs) := by
  induction evs generalizing s with
  | nil => exact h
  | cons e evs ih =>
    obtain ⟨u, c⟩ := e
    exact ih _ (inv_step s u c h)

/-! ## Registry symmetry -/

theorem guarded_step {ι : Type} [DecidableEq ι] (s : State ι) (u : ι) (c : Command ι)
    (hInv : Inv s) (hsym : SymmetricPairing s.ongoingRankedMatches)
    (hq : ∀ x ∈ s.rankedQueue, mapGet s.ongoingRankedMatches x = none)
    (hg : c = Command.joinranked → mapGet s.ongoingRankedMatches u = none) :
    SymmetricPairing (interactionCreate s u c).1.ongoingRankedMatches ∧
    ∀ x ∈ (interactionCreate s u c).1.rankedQueue,
      mapGet (interactionCreate s u c).1.ongoingRankedMatches x = none := by
  cases c with
  | join =>
    simp only [interactionCreate]
    by_cases hm : u ∈ s.casualQueue
    · rw [if_pos hm]; exact ⟨hsym, hq⟩
    · rw [if_neg hm]
      cases hsp : shiftPair (s.casualQueue ++ [u]) with
      | none => exact ⟨hsym, hq⟩
      | some t => exact ⟨hsym, hq⟩
  | joinranked =>
    have hu := hg rfl
    simp only [interactionCreate]
    by_cases hm : u ∈ s.rankedQueue
    · rw [if_pos hm]; exact ⟨hsym, hq⟩
    · rw [if_neg hm]
      have hq' : ∀ x ∈ s.rankedQueue ++ [u], mapGet s.ongoingRankedMatches x = none := by
        intro x hx
        rcases List.mem_append.1 hx with hx | hx
        · exact hq x hx
        · rw [List.mem_singleton.1 hx]; exact hu
      have hnd := nodup_snoc hInv.rankedNodup hm
      cases hsp : shiftPair (s.rankedQueue ++ [u]) with
      | none => exact ⟨hsym, hq'⟩
      | some t =>
        obtain ⟨p1, p2, rest⟩ := t
        rw [shiftPair_eq_some hsp] at hnd hq'
        have h1 : mapGet s.ongoingRankedMatches p1 = none := hq' p1 (List.mem_cons_self _ _)
        have h2 : mapGet s.ongoingRankedMatches p2 = none :=
          hq' p2 (List.mem_cons_of_mem _ (List.mem_cons_self _ _))
        have hget : ∀ x, mapGet (mapSet (mapSet s.ongoingRankedMatches p1 p2) p2 p1) x =
            if x = p2 then some p1 else if x = p1 then some p2
            else mapGet s.ongoingRankedMatches x := by
          intro x; rw [mapGet_mapSet, mapGet_mapSet]
        refine ⟨?_, ?_⟩
        · intro a b hab
          show mapGet (mapSet (mapSet s.ongoingRankedMatches p1 p2) p2 p1) b = some a
          have hab' : mapGet (mapSet (mapSet s.ongoingRankedMatches p1 p2) p2 p1) a = some b :=
            hab
          rw [hget] at hab' ⊢
          by_cases ha2 : a = p2
          · rw [if_pos ha2] at hab'
            have hb : b = p1 := (Option.some.inj hab').symm
            rw [hb, ha2]
            by_cases h12 : p1 = p2
            · rw [if_pos h12, h12]
            · rw [if_neg h12, if_pos rfl]
          · rw [if_neg ha2] at hab'
            by_cases ha1 : a = p1
            · rw [if_pos ha1] at hab'
              have hb : b = p2 := (Option.some.inj hab').symm
              rw [hb, ha1, if_pos rfl]
            · rw [if_neg ha1] at hab'
              have hba := hsym a b hab'
              have hb2 : b ≠ p2 := by
                intro e; rw [e, h2] at hba; exact Option.noConfusion hba
              have hb1 : b ≠ p1 := by
                intro e; rw [e, h1] at hba; exact Option.noConfusion hba
              rw [if_neg hb2, if_neg hb1]; exact hba
        · intro x hx
          show mapGet (mapSet (mapSet s.ongoingRankedMatches p1 p2) p2 p1) x = none
          have hx' : x ∈ rest := hx
          have hx2 : x ≠ p2 := by
            intro e
            exact (List.nodup_cons.1 (List.nodup_cons.1 hnd).2).1 (e ▸ hx')
          have hx1 : x ≠ p1 := by
            intro e
            exact (List.nodup_cons.1 hnd).1 (List.mem_cons_of_mem _ (e ▸ hx'))
          rw [hget, if_neg hx2, if_neg hx1]
          exact hq' x (List.mem_cons_of_mem _ (List.mem_cons_of_mem _ hx'))
  | report opp res =>
    by_cases hacc : mapGet s.ongoingRankedMatches u = some opp
    · rw [report_accepted s u opp res hacc]
      have hget : ∀ x, mapGet (mapDelete (mapDelete s.ongoingRankedMatches u) opp) x =
          if x = opp then none else if x = u then none
          else mapGet s.ongoingRankedMatches x := by
        intro x; rw [mapGet_mapDelete, mapGet_mapDelete]
      refine ⟨?_, ?_⟩
      · intro a b hab
        show mapGet (mapDelete (mapDelete s.ongoingRankedMatches u) opp) b = some a
        have hab' : mapGet (mapDelete (mapDelete s.ongoingRankedMatches u) opp) a = some b := hab
        rw [hget] at hab' ⊢
        by_cases hao : a = opp
        · rw [if_pos hao] at hab'; exact Option.noConfusion hab'
        · rw [if_neg hao] at hab'
          by_cases hau : a = u
          · rw [if_pos hau] at hab'; exact Option.noConfusion hab'
          · rw [if_neg hau] at hab'
            have hba := hsym a b hab'
            have hbo : b ≠ opp := by
              intro e
              rw [e, hsym u opp hacc] at hba
              exact hau (Option.some.inj hba).symm
            have hbu : b ≠ u := by
              intro e
              rw [e, hacc] at hba
              exact hao (Option.some.inj hba).symm
            rw [if_neg hbo, if_neg hbu]; exact hba
      · intro x hx
        show mapGet (mapDelete (mapDelete s.ongoingRankedMatches u) opp) x = none
        rw [hget]
        by_cases hxo : x = opp
        · rw [if_pos hxo]
        · rw [if_neg hxo]
          by_cases hxu : x = u
          · rw [if_pos hxu]
          · rw [if_neg hxu]; exact hq x hx
    · rw [report_rejected s u opp res hacc]; exact ⟨hsym, hq⟩
  | leaderboard =>
    simp only [interactionCreate]
    by_cases hl : (topTen s.players).length = 0
    · rw [if_pos hl]; exact ⟨hsym, hq⟩
    · rw [if_neg hl]; exact ⟨hsym, hq⟩
  | resetleaderboard isAdministrator =>
    simp only [interactionCreate]
    cases isAdministrator with
    | false => exact ⟨hsym, hq⟩
    | true => exact ⟨hsym, hq⟩

theorem guarded_run {ι : Type} [DecidableEq ι] (evs : List (ι × Command ι)) (s : State ι)
    (hInv : Inv s) (hsym : SymmetricPairing s.ongoingRankedMatches)
    (hq : ∀ x ∈ s.rankedQueue, mapGet s.ongoingRankedMatches x = none)
    (hg : joinsWhileUnmatched s evs = true) :
    SymmetricPairing (run s evs).ongoingRankedMatches := by
  induction evs generalizing s with
  | nil => exact hsym
  | cons e evs ih =>
    obtain ⟨u, c⟩ := e
    simp only [joinsWhileUnmatched, Bool.and_eq_true, decide_eq_true_eq] at hg
    obtain ⟨hsym', hq'⟩ := guarded_step s u c hInv hsym hq hg.1
    exact ih _ (inv_step s u c hInv) hsym' hq' hg.2

/-- C2 (as stated, refuted). After `1` and `2` are paired, `1` joins again and is paired with
`3`: the registry then maps `2` to `1` while `1` is mapped to `3`. -/
theorem registry_not_symmetric :
    ¬ SymmetricPairing (run (init : State Nat)
        [(1, .joinranked), (2, .joinranked), (1, .joinranked), (3, .joinranked)]).ongoingRankedMatches := by
  intro h
  have h21 := h 2 1 (by decide)
  revert h21
  decide

/-- C2 (amended). If every `joinranked` is issued by a user without a registry entry, the
registry is a symmetric pairing in every state reached from the initial one. -/
theorem registry_symmetric_of_unmatched_joins {ι : Type} [DecidableEq ι]
    (evs : List (ι × Command ι)) (hg : joinsWhileUnmatched init evs = true) :
    SymmetricPairing (run init evs).ongoingRankedMatches :=
  guarded_run evs init inv_init (fun a b h => by simp [init, mapGet_nil] at h)
    (fun x hx => by simp [init] at hx) hg

theorem registry_symmetric_of_unmatched_joins_witness :
    joinsWhileUnmatched (init : State Nat)
        [(1, .joinranked), (2, .joinranked), (3, .join), (1, .report 2 .win),
          (1, .joinranked), (3, .joinranked)] = true ∧
    SymmetricPairing (run (init : State Nat)
        [(1, .joinranked), (2, .joinranked), (3, .join), (1, .report 2 .win),
          (1, .joinranked), (3, .joinranked)]).ongoingRankedMatches :=
  ⟨by decide!, registry_symmetric_of_unmatched_joins _ (by decide!)⟩

/-! ## Report validation -/

/-- C3. A report is answered with `noActiveMatch` exactly when the registry has no entry for
the reporter or maps the reporter to someone other than the named opponent, and then the
whole state (store, both queues, registry) is unchanged. -/
theorem report_rejected_iff {ι : Type} [DecidableEq ι] (s : State ι) (u opp : ι)
    (res : Result) :
    ((interactionCreate s u (.report opp res)).2 = [.noActiveMatch] ↔
      (mapGet s.ongoingRankedMatches u = none ∨
        ∃ x, mapGet s.ongoingRankedMatches u = some x ∧ x ≠ opp)) ∧
    ((interactionCreate s u (.report opp res)).2 = [.noActiveMatch] →
      (interactionCreate s u (.report opp res)).1 = s) := by
  by_cases hacc : mapGet s.ongoingRankedMatches u = some opp
  · rw [report_accepted s u opp res hacc]
    refine ⟨⟨fun h => ?_, fun h => ?_⟩, fun h => ?_⟩
    · simp at h
    · rcases h with h | ⟨x, hx, hne⟩
      · rw [hacc] at h; exact Option.noConfusion h
      · rw [hacc] at hx; exact absurd (Option.some.inj hx).symm hne
    · simp at h
  · rw [report_rejected s u opp res hacc]
    refine ⟨⟨fun _ => ?_, fun _ => rfl⟩, fun _ => rfl⟩
    cases hget : mapGet s.ongoingRankedMatches u with
    | none => exact Or.inl rfl
    | some x =>
      refine Or.inr ⟨x, rfl, fun e => hacc ?_⟩
      rw [hget, e]

theorem report_rejected_iff_witness :
    (interactionCreate (run (init : State Nat) [(1, .joinranked), (2, .joinranked)]) 1
        (.report 3 .win)).2 = [.noActiveMatch] ∧
    (interactionCreate (run (init : State Nat) [(1, .joinranked), (2, .joinranked)]) 1
        (.report 3 .win)).1 = run (init : State Nat) [(1, .joinranked), (2, .joinranked)] :=
  ⟨by decide,
    (report_rejected_iff (run (init : State Nat) [(1, .joinranked), (2, .joinranked)]) 1 3
      .win).2 (by decide)⟩

/-! ## End-to-end ranked scenario -/

theorem calculateEloChange_equal_win : calculateEloChange 500 500 true = 16 := by decide!

/-- C4. From the initial state, `X` then `Y` joining the ranked queue are announced and
registered as a pair; `X` reporting a win over `Y` leaves `X` at 1 win, 0 losses, 516 and `Y`
at 0 wins, 1 loss, 484; any further report by `X` against `Y` is rejected. -/
theorem ranked_scenario {ι : Type} [DecidableEq ι] (X Y : ι) (hXY : X ≠ Y) :
    replies init [(X, .joinranked), (Y, .joinranked)] =
      [[.joinedRankedQueue], [.joinedRankedQueue, .rankedMatchFound X Y]] ∧
    mapGet (run init [(X, .joinranked), (Y, .joinranked)]).ongoingRankedMatches X = some Y ∧
    mapGet (run init [(X, .joinranked), (Y, .joinranked)]).ongoingRankedMatches Y = some X ∧
    (interactionCreate (run init [(X, .joinranked), (Y, .joinranked)]) X (.report Y .win)).2 =
      [.resultRecorded true X] ∧
    (run init [(X, .joinranked), (Y, .joinranked), (X, .report Y .win)]).players =
      [{ user_id := X, wins := 1, losses := 0, elo := 516 },
       { user_id := Y, wins := 0, losses := 1, elo := 484 }] ∧
    ∀ res, interactionCreate (run init [(X, .joinranked), (Y, .joinranked), (X, .report Y .win)])
        X (.report Y res) =
      (run init [(X, .joinranked), (Y, .joinranked), (X, .report Y .win)], [.noActiveMatch]) := by
  have hYX : Y ≠ X := fun e => hXY e.symm
  have h1 : interactionCreate (init : State ι) X .joinranked =
      ({ casualQueue := [], rankedQueue := [X], ongoingRankedMatches := [], players := [] },
        [.joinedRankedQueue]) := by
    simp [interactionCreate, init, shiftPair]
  have h2 : interactionCreate
      ({ casualQueue := [], rankedQueue := [X], ongoingRankedMatches := [], players := [] } :
        State ι) Y .joinranked =
      ({ casualQueue := [], rankedQueue := [], ongoingRankedMatches := [(X, Y), (Y, X)],
         players := [] }, [.joinedRankedQueue, .rankedMatchFound X Y]) := by
    simp [interactionCreate, shiftPair, mapSet, mapHas, hYX, hXY]
  have hs2 : run (init : State ι) [(X, .joinranked), (Y, .joinranked)] =
      { casualQueue := [], rankedQueue := [], ongoingRankedMatches := [(X, Y), (Y, X)],
        players := [] } := by
    simp only [run, h1, h2]
  have hgX : mapGet [(X, Y), (Y, X)] X = some Y := by simp [mapGet_cons]
  have hgY : mapGet [(X, Y), (Y, X)] Y = some X := by simp [mapGet_cons, hXY, mapGet_nil]
  have hrat : reportRatings ([] : List (Player ι)) X Y = (500, 500) := by
    simp [reportRatings, insertOrIgnore, findPlayer_nil, findPlayer_cons, defaultPlayer, selectIn,
      eloOr500, hXY, hYX]
  have h3 : interactionCreate
      ({ casualQueue := [], rankedQueue := [], ongoingRankedMatches := [(X, Y), (Y, X)],
         players := [] } : State ι) X (.report Y .win) =
      ({ casualQueue := [], rankedQueue := [], ongoingRankedMatches := [],
         players := [{ user_id := X, wins := 1, losses := 0, elo := 516 },
                     { user_id := Y, wins := 0, losses := 1, elo := 484 }] },
        [.resultRecorded true X]) := by
    rw [report_accepted _ _ _ _ hgX]
    simp [hrat, calculateEloChange_equal_win, insertOrIgnore, findPlayer_nil, findPlayer_cons,
      defaultPlayer, updateStats, mapDelete, hXY, hYX]
  have hs3 : run (init : State ι) [(X, .joinranked), (Y, .joinranked), (X, .report Y .win)] =
      { casualQueue := [], rankedQueue := [], ongoingRankedMatches := [],
        players := [{ user_id := X, wins := 1, losses := 0, elo := 516 },
                    { user_id := Y, wins := 0, losses := 1, elo := 484 }] } := by
    simp only [run, h1, h2, h3]
  refine ⟨?_, ?_, ?_, ?_, ?_, ?_⟩
  · simp only [replies, h1, h2]
  · rw [hs2]; exact hgX
  · rw [hs2]; exact hgY
  · rw [hs2, h3]
  · rw [hs3]
  · intro res
    rw [hs3]
    exact report_rejected _ _ _ _ (by simp [mapGet_nil])

theorem ranked_scenario_witness :
    (1 : Nat) ≠ 2 ∧
    (run (init : State Nat) [(1, .joinranked), (2, .joinranked), (1, .report 2 .win)]).players =
      [{ user_id := 1, wins := 1, losses := 0, elo := 516 },
       { user_id := 2, wins := 0, losses := 1, elo := 484 }] :=
  ⟨by decide, (ranked_scenario (1 : Nat) 2 (by decide)).2.2.2.2.1⟩

/-! ## Report: ratings read and records written -/

theorem storedOrDefault_insertOrIgnore_of_ne {ι : Type} [DecidableEq ι] (rows : List (Player ι))
    {id x : ι} (hx : x ≠ id) :
    storedOrDefault (insertOrIgnore rows id) x = storedOrDefault rows x := by
  unfold storedOrDefault
  rw [findPlayer_insertOrIgnore_of_ne rows hx]

theorem findPlayer_ensured {ι : Type} [DecidableEq ι] (rows : List (Player ι)) {u opp : ι}
    (hne : u ≠ opp) :
    findPlayer (insertOrIgnore (insertOrIgnore rows u) opp) u = some (storedOrDefault rows u) ∧
    findPlayer (insertOrIgnore (insertOrIgnore rows u) opp) opp =
      some (storedOrDefault rows opp) ∧
    ∀ x, x ≠ u → x ≠ opp →
      findPlayer (insertOrIgnore (insertOrIgnore rows u) opp) x = findPlayer rows x := by
  refine ⟨?_, ?_, ?_⟩
  · rw [findPlayer_insertOrIgnore_of_ne _ hne, findPlayer_insertOrIgnore_self]
  · rw [findPlayer_insertOrIgnore_self, storedOrDefault_insertOrIgnore_of_ne rows hne.symm]
  · intro x hxu hxo
    rw [findPlayer_insertOrIgnore_of_ne _ hxo, findPlayer_insertOrIgnore_of_ne _ hxu]

/-- The ratings the report handler reads: the stored rating (500 for a user without a row),
except that a stored rating of `0` is read as 500. -/
theorem reportRatings_eq {ι : Type} [DecidableEq ι] (rows : List (Player ι)) {u opp : ι}
    (hne : u ≠ opp) :
    reportRatings rows u opp =
      (if (storedOrDefault rows u).elo = 0 then 500 else (storedOrDefault rows u).elo,
       if (storedOrDefault rows opp).elo = 0 then 500 else (storedOrDefault rows opp).elo) := by
  obtain ⟨hu, ho, _⟩ := findPlayer_ensured rows hne
  unfold reportRatings eloOr500
  simp only
  rw [findPlayer_selectIn _ _ _ _ (Or.inl rfl), findPlayer_selectIn _ _ _ _ (Or.inr rfl), hu, ho]

/-- C5 (as stated, refuted). When the reporter reports a loss, the reporter's record gains a
loss and no win, and the opponent's record gains the win. -/
theorem report_loss_counts_for_opponent :
    (run (init : State Nat)
        [(1, .joinranked), (2, .joinranked), (1, .report 2 .loss)]).players =
      [{ user_id := 1, wins := 0, losses := 1, elo := 484 },
       { user_id := 2, wins := 1, losses := 0, elo := 516 }] ∧
    (findPlayer (run (init : State Nat)
        [(1, .joinranked), (2, .joinranked), (1, .report 2 .loss)]).players 1).map
      (fun p => (p.wins, p.losses)) ≠ some (0 + 1, 0 + 0) := by
  decide!

/-- C5 (amended). An accepted report in a reachable state, with both stored ratings nonzero and
`delta = calculateEloChange reporterRating opponentRating reporterWon`: on a win the reporter
gets `+1` win and `+delta` and the opponent `+1` loss and `-delta`; on a loss the reporter gets
`+1` loss and `+delta` and the opponent `+1` win and `-delta`; every other row is unchanged. -/
theorem report_updates_records {ι : Type} [DecidableEq ι] (evs : List (ι × Command ι))
    (u opp : ι) (res : Result)
    (hacc : mapGet (run init evs).ongoingRankedMatches u = some opp)
    (hu : (storedOrDefault (run init evs).players u).elo ≠ 0)
    (ho : (storedOrDefault (run init evs).players opp).elo ≠ 0) :
    findPlayer (interactionCreate (run init evs) u (.report opp res)).1.players u =
      some
        { user_id := (storedOrDefault (run init evs).players u).user_id
          wins := (storedOrDefault (run init evs).players u).wins +
            (if res = Result.win then 1 else 0)
          losses := (storedOrDefault (run init evs).players u).losses +
            (if res = Result.win then 0 else 1)
          elo := (storedOrDefault (run init evs).players u).elo +
            calculateEloChange (storedOrDefault (run init evs).players u).elo
              (storedOrDefault (run init evs).players opp).elo (decide (res = Result.win)) } ∧
    findPlayer (interactionCreate (run init evs) u (.report opp res)).1.players opp =
      some
        { user_id := (storedOrDefault (run init evs).players opp).user_id
          wins := (storedOrDefault (run init evs).players opp).wins +
            (if res = Result.win then 0 else 1)
          losses := (storedOrDefault (run init evs).players opp).losses +
            (if res = Result.win then 1 else 0)
          elo := (storedOrDefault (run init evs).players opp).elo -
            calculateEloChange (storedOrDefault (run init evs).players u).elo
              (storedOrDefault (run init evs).players opp).elo (decide (res = Result.win)) } ∧
    ∀ x, x ≠ u → x ≠ opp →
      findPlayer (interactionCreate (run init evs) u (.report opp res)).1.players x =
        findPlayer (run init evs).players x := by
  have hInv : Inv (run init evs) := inv_run evs init inv_init
  generalize run init evs = s at hacc hu ho hInv
  have hne : u ≠ opp := fun e => hInv.irrefl u (by rw [hacc, e])
  have hne' : ¬ opp = u := fun e => hne e.symm
  obtain ⟨hfu, hfo, hfx⟩ := findPlayer_ensured s.players hne
  rw [report_accepted s u opp res hacc, reportRatings_eq s.players hne, if_neg hu, if_neg ho]
  cases res with
  | win =>
    refine ⟨?_, ?_, ?_⟩
    · simp [findPlayer_updateStats, hfu, hne]
    · simp [findPlayer_updateStats, hfo, hne', sub_eq_add_neg]
    · intro x hxu hxo
      simp [findPlayer_updateStats, hfx x hxu hxo, hxu, hxo]
  | loss =>
    refine ⟨?_, ?_, ?_⟩
    · simp [findPlayer_updateStats, hfu, hne]
    · simp [findPlayer_updateStats, hfo, hne', sub_eq_add_neg]
    · intro x hxu hxo
      simp [findPlayer_updateStats, hfx x hxu hxo, hxu, hxo]

theorem report_updates_records_witness :
    mapGet (run (init : State Nat)
      [(1, .joinranked), (2, .joinranked), (1, .report 2 .win), (2, .joinranked),
        (1, .joinranked)]).ongoingRankedMatches 1 = some 2 ∧
    (storedOrDefault (run (init : State Nat)
      [(1, .joinranked), (2, .joinranked), (1, .report 2 .win), (2, .joinranked),
        (1, .joinranked)]).players 1).elo = 516 ∧
    (storedOrDefault (run (init : State Nat)
      [(1, .joinranked), (2, .joinranked), (1, .report 2 .win), (2, .joinranked),
        (1, .joinranked)]).players 2).elo = 484 ∧
    findPlayer (interactionCreate (run (init : State Nat)
      [(1, .joinranked), (2, .joinranked), (1, .report 2 .win), (2, .joinranked),
        (1, .joinranked)]) 1 (.report 2 .loss)).1.players 1 =
      some { user_id := 1, wins := 1, losses := 1, elo := 499 } ∧
    findPlayer (interactionCreate (run (init : State Nat)
      [(1, .joinranked), (2, .joinranked), (1, .report 2 .win), (2, .joinranked),
        (1, .joinranked)]) 1 (.report 2 .loss)).1.players 2 =
      some { user_id := 2, wins := 1, losses := 1, elo := 501 } :=
  ⟨by decide!, by decide!, by decide!,
    ((report_updates_records
      [(1, .joinranked), (2, .joinranked), (1, .report 2 .win), (2, .joinranked),
        (1, .joinranked)] 1 2 .loss (by decide!) (by decide!) (by decide!)).1).trans
      (by decide!),
    ((report_updates_records
      [(1, .joinranked), (2, .joinranked), (1, .report 2 .win), (2, .joinranked),
        (1, .joinranked)] 1 2 .loss (by decide!) (by decide!) (by decide!)).2.1).trans
      (by decide!)⟩

/-- C6 (the code differs). User `0` reaches a stored rating of `0` by reporting 106 losses
against fresh opponents; when then paired with user `107` and reporting a win, the handler
passes `(500, 500)` to `calculateEloChange`, not the stored `(0, 500)`, and adds the resulting
`16` (instead of `30`) to the stored `0`. -/
theorem report_reads_500_for_stored_zero :
    findPlayer (run init (losingStreak 106 ++ [(0, .joinranked), (107, .joinranked)])).players
        0 = some { user_id := 0, wins := 0, losses := 106, elo := 0 } ∧
    mapGet (run init
      (losingStreak 106 ++ [(0, .joinranked), (107, .joinranked)])).ongoingRankedMatches 0 =
        some 107 ∧
    reportRatings (run init
      (losingStreak 106 ++ [(0, .joinranked), (107, .joinranked)])).players 0 107 = (500, 500) ∧
    calculateEloChange 500 500 true = 16 ∧
    calculateEloChange 0 500 true = 30 ∧
    (findPlayer (run init (losingStreak 106 ++
        [(0, .joinranked), (107, .joinranked), (0, .report 107 .win)])).players 0).map
      (fun p => p.elo) = some 16 := by
  decide!

/-! ## Queues -/

/-- C7. In either queue a join by a user already waiting is refused and changes nothing; a join
by a user not waiting is accepted and the user is appended at the tail before the pair
extraction; and no reachable queue holds a user twice. -/
theorem enqueue_dedup {ι : Type} [DecidableEq ι] :
    (∀ (s : State ι) (u : ι), u ∈ s.casualQueue →
      interactionCreate s u .join = (s, [.alreadyInCasualQueue])) ∧
    (∀ (s : State ι) (u : ι), u ∈ s.rankedQueue →
      interactionCreate s u .joinranked = (s, [.alreadyInRankedQueue])) ∧
    (∀ (s : State ι) (u : ι), u ∉ s.casualQueue →
      (interactionCreate s u .join).2.head? = some .joinedCasualQueue ∧
      (interactionCreate s u .join).1.casualQueue =
        if 2 ≤ (s.casualQueue ++ [u]).length then (s.casualQueue ++ [u]).drop 2
        else s.casualQueue ++ [u]) ∧
    (∀ (s : State ι) (u : ι), u ∉ s.rankedQueue →
      (interactionCreate s u .joinranked).2.head? = some .joinedRankedQueue ∧
      (interactionCreate s u .joinranked).1.rankedQueue =
        if 2 ≤ (s.rankedQueue ++ [u]).length then (s.rankedQueue ++ [u]).drop 2
        else s.rankedQueue ++ [u]) ∧
    (∀ evs : List (ι × Command ι),
      (run init evs).casualQueue.Nodup ∧ (run init evs).rankedQueue.Nodup) := by
  refine ⟨?_, ?_, ?_, ?_, ?_⟩
  · intro s u hm
    simp only [interactionCreate]
    rw [if_pos hm]
  · intro s u hm
    simp only [interactionCreate]
    rw [if_pos hm]
  · intro s u hm
    simp only [interactionCreate]
    rw [if_neg hm]
    by_cases hlen : 2 ≤ (s.casualQueue ++ [u]).length
    · obtain ⟨p1, p2, _, hsp⟩ := shiftPair_of_length _ hlen
      rw [hsp, if_pos hlen]
      exact ⟨rfl, rfl⟩
    · cases hsp : shiftPair (s.casualQueue ++ [u]) with
      | none => rw [if_neg hlen]; exact ⟨rfl, rfl⟩
      | some t =>
        obtain ⟨p1, p2, rest⟩ := t
        rw [shiftPair_eq_some hsp] at hlen
        exact absurd (by simp) hlen
  · intro s u hm
    simp only [interactionCreate]
    rw [if_neg hm]
    by_cases hlen : 2 ≤ (s.rankedQueue ++ [u]).length
    · obtain ⟨p1, p2, _, hsp⟩ := shiftPair_of_length _ hlen
      rw [hsp, if_pos hlen]
      exact ⟨rfl, rfl⟩
    · cases hsp : shiftPair (s.rankedQueue ++ [u]) with
      | none => rw [if_neg hlen]; exact ⟨rfl, rfl⟩
      | some t =>
        obtain ⟨p1, p2, rest⟩ := t
        rw [shiftPair_eq_some hsp] at hlen
        exact absurd (by simp) hlen
  · intro evs
    exact ⟨(inv_run evs init inv_init).casualNodup, (inv_run evs init inv_init).rankedNodup⟩

theorem enqueue_dedup_witness :
    interactionCreate
      ({ casualQueue := [7], rankedQueue := [], ongoingRankedMatches := [], players := [] } :
        State Nat) 7 .join =
      ({ casualQueue := [7], rankedQueue := [], ongoingRankedMatches := [], players := [] },
        [.alreadyInCasualQueue]) :=
  enqueue_dedup.1 _ 7 (by decide)

/-- C8. When a join leaves a queue with at least two entries, the pair announced is the first
and second entry in arrival order and the queue keeps the remaining entries in order; for
distinct `A`, `B`, `C` joining in that order the pair is `(A, B)` and `C` stays queued. -/
theorem pair_extraction_fifo {ι : Type} [DecidableEq ι] :
    (∀ (s : State ι) (u : ι), u ∉ s.casualQueue → 2 ≤ (s.casualQueue ++ [u]).length →
      ∃ p1 p2, (s.casualQueue ++ [u]).take 2 = [p1, p2] ∧
        interactionCreate s u .join =
          ({ s with casualQueue := (s.casualQueue ++ [u]).drop 2 },
            [.joinedCasualQueue, .casualMatchFound p1 p2])) ∧
    (∀ (s : State ι) (u : ι), u ∉ s.rankedQueue → 2 ≤ (s.rankedQueue ++ [u]).length →
      ∃ p1 p2, (s.rankedQueue ++ [u]).take 2 = [p1, p2] ∧
        interactionCreate s u .joinranked =
          ({ s with
              rankedQueue := (s.rankedQueue ++ [u]).drop 2
              ongoingRankedMatches := mapSet (mapSet s.ongoingRankedMatches p1 p2) p2 p1 },
            [.joinedRankedQueue, .rankedMatchFound p1 p2])) ∧
    (∀ A B C : ι, A ≠ B → A ≠ C → B ≠ C →
      replies init [(A, .join), (B, .join), (C, .join)] =
        [[.joinedCasualQueue], [.joinedCasualQueue, .casualMatchFound A B],
          [.joinedCasualQueue]] ∧
      (run init [(A, .join), (B, .join), (C, .join)]).casualQueue = [C] ∧
      replies init [(A, .joinranked), (B, .joinranked), (C, .joinranked)] =
        [[.joinedRankedQueue], [.joinedRankedQueue, .rankedMatchFound A B],
          [.joinedRankedQueue]] ∧
      (run init [(A, .joinranked), (B, .joinranked), (C, .joinranked)]).rankedQueue = [C]) := by
  refine ⟨?_, ?_, ?_⟩
  · intro s u hm hlen
    obtain ⟨p1, p2, htake, hsp⟩ := shiftPair_of_length _ hlen
    refine ⟨p1, p2, htake, ?_⟩
    simp only [interactionCreate]
    rw [if_neg hm, hsp]
  · intro s u hm hlen
    obtain ⟨p1, p2, htake, hsp⟩ := shiftPair_of_length _ hlen
    refine ⟨p1, p2, htake, ?_⟩
    simp only [interactionCreate]
    rw [if_neg hm, hsp]
  · intro A B C hAB hAC hBC
    have hBA : B ≠ A := fun e => hAB e.symm
    refine ⟨?_, ?_, ?_, ?_⟩ <;>
      simp [replies, run, interactionCreate, init, shiftPair, hAB, hBA, hAC, hBC]

theorem pair_extraction_fifo_witness :
    (1 : Nat) ≠ 2 ∧ (1 : Nat) ≠ 3 ∧ (2 : Nat) ≠ 3 ∧
    replies (init : State Nat) [(1, .join), (2, .join), (3, .join)] =
      [[.joinedCasualQueue], [.joinedCasualQueue, .casualMatchFound 1 2],
        [.joinedCasualQueue]] :=
  ⟨by decide, by decide, by decide,
    (pair_extraction_fifo.2.2 (1 : Nat) 2 3 (by decide) (by decide) (by decide)).1⟩

/-! ## Store conservation -/

/-- C9. In every state reached from the initial one by any commands, the stored ratings sum
to 500 times the number of rows, total wins equal total losses, and the registry maps no user
to itself. -/
theorem store_conservation {ι : Type} [DecidableEq ι] (evs : List (ι × Command ι)) :
    ((run init evs).players.map (fun p => p.elo)).sum =
      500 * ((run init evs).players.length : Int) ∧
    ((run init evs).players.map (fun p => p.wins)).sum =
      ((run init evs).players.map (fun p => p.losses)).sum ∧
    ∀ a, mapGet (run init evs).ongoingRankedMatches a ≠ some a :=
  ⟨(inv_run evs init inv_init).eloSum, (inv_run evs init inv_init).winsLosses,
    (inv_run evs init inv_init).irrefl⟩

end Matchmaking
